import Mathlib

/-!
# Verification of the task_4 assistant bot (`assistant.py`)

Shallow embedding of the contact-assistant command interpreter.
Python strings are modelled as `List Char` (`Str`); the tokenizer's
character scan, the handlers, the error-normalizing decorator and one
iteration of the dispatch loop are translated function by function.
-/

/-- A Python string, modelled as its list of characters. -/
abbrev Str := List Char

/-- Coerce a Lean string literal to the `Str` model. -/
def str (s : String) : Str := s.data

/-- The whitespace predicate of Python's `str.split()` / `str.strip()`
(ASCII whitespace: space, tab, newline, carriage return, vertical tab,
form feed). -/
def pyIsSpace (c : Char) : Bool :=
  c = ' ' || c = '\t' || c = '\n' || c = '\r' || c = '\x0b' || c = '\x0c'

/-- Worker for `pySplit`: `acc` holds the (reversed) current word. -/
def pySplitAux : Str → Str → List Str
  | [], acc => if acc = [] then [] else [acc.reverse]
  | c :: rest, acc =>
    if pyIsSpace c then
      if acc = [] then pySplitAux rest [] else acc.reverse :: pySplitAux rest []
    else pySplitAux rest (c :: acc)

/-- Python `s.split()`: split on whitespace runs, discarding empty words. -/
def pySplit (s : Str) : List Str := pySplitAux s []

/-- Python `' '.join(ws)`. -/
def pyJoin : List Str → Str
  | [] => []
  | [w] => w
  | w :: ws => w ++ ' ' :: pyJoin ws

/-- Python `s.strip()`: drop whitespace from both ends. -/
def pyStrip (s : Str) : Str :=
  (((s.dropWhile pyIsSpace).reverse.dropWhile pyIsSpace)).reverse

/-- Python `c.lower()` for one character (ASCII case mapping). -/
def pyToLower (c : Char) : Char :=
  if 65 ≤ c.toNat ∧ c.toNat ≤ 90 then Char.ofNat (c.toNat + 32) else c

/-- Python `s.lower()`. -/
def pyLower (s : Str) : Str := s.map pyToLower

/-- Python `s.split(maxsplit=1)`: at most one split; the second part keeps
its trailing whitespace but the separating whitespace run is consumed. -/
def pySplitMax1 (s : Str) : List Str :=
  let s1 := s.dropWhile pyIsSpace
  if s1 = [] then []
  else
    let w := s1.takeWhile (fun c => !pyIsSpace c)
    let r := (s1.dropWhile (fun c => !pyIsSpace c)).dropWhile pyIsSpace
    if r = [] then [w] else [w, r]

/-- State of the character scan in `parse_input`: the arguments pushed so
far, the current token buffer, and the opening quote when inside quotes. -/
structure ScanState where
  args : List Str
  current : Str
  in_quotes : Option Char
deriving DecidableEq, Repr

/-- One step of the scan loop in `parse_input` (the `for char in
args_string` body). -/
def scanChar (st : ScanState) (c : Char) : ScanState :=
  match st.in_quotes with
  | some q =>
    if c = q then { st with in_quotes := none }
    else { st with current := st.current ++ [c] }
  | none =>
    if c = '"' ∨ c = '\'' then { st with in_quotes := some c }
    else if c = ' ' then
      if st.current ≠ [] then ⟨st.args ++ [st.current], [], none⟩
      else { st with current := [] }
    else { st with current := st.current ++ [c] }

/-- Python `args_string.endswith(('"', "'"))`. -/
def endsWithQuote (s : Str) : Bool :=
  match s.getLast? with
  | some c => c = '"' || c = '\''
  | none => false

/-- The final `if` after the scan loop in `parse_input`: push the last
buffer when it is non-empty, or when it is empty, no quote is open, the
argument string ends with a quote character and nothing was pushed yet. -/
def finalizeScan (st : ScanState) (argsString : Str) : List Str :=
  if st.current ≠ [] ∨
      (st.current = [] ∧ st.in_quotes = none ∧ endsWithQuote argsString = true ∧ st.args = [])
  then st.args ++ [st.current] else st.args

/-- The argument-scanning part of `parse_input`: run the state machine over
the argument string, then apply the final push rule. -/
def scanArgs (argsString : Str) : List Str :=
  finalizeScan (argsString.foldl scanChar ⟨[], [], none⟩) argsString

/-- `parse_input` after its whitespace pre-processing step (the code from
`if not user_input` on, applied to the normalized string). -/
def parseNormalized (user_input : Str) : Str × List Str :=
  if user_input = [] then ([], [])
  else
    match pySplitMax1 user_input with
    | [] => ([], [])  -- unreachable: the normalized string has a first word
    | [p0] => (pyLower (pyStrip p0), [])
    | p0 :: p1 :: _ => (pyLower (pyStrip p0), scanArgs p1)

/-- `parse_input`: normalize whitespace (`' '.join(user_input.split())`),
split off the command, lower-case it, and scan the remainder for
arguments. -/
def parse_input (user_input : Str) : Str × List Str :=
  parseNormalized (pyJoin (pySplit user_input))

/-- Rejoining a parsed line: the command followed by the arguments
separated by single spaces (the canonical re-quoting-free rendering used
by the re-tokenization property). -/
def rejoinLine (command : Str) (args : List Str) : Str := pyJoin (command :: args)

/-- The contact store: a Python `dict[str, str]`, modelled as an
insertion-ordered association list with unique keys. -/
abbrev Contacts := List (Str × Str)

/-- Python `name in contacts`. -/
def dictContains (contacts : Contacts) (name : Str) : Bool :=
  contacts.any (fun p => p.1 = name)

/-- Python `contacts[name] = phone`: update in place when the key exists
(keeping its position), otherwise append at the end. -/
def dictSet (contacts : Contacts) (name phone : Str) : Contacts :=
  if dictContains contacts name then
    contacts.map (fun p => if p.1 = name then (p.1, phone) else p)
  else contacts ++ [(name, phone)]

/-- Python `contacts[name]` as a lookup returning `none` on a miss. -/
def dictGet (contacts : Contacts) (name : Str) : Option Str :=
  (contacts.find? (fun p => p.1 = name)).map Prod.snd

/-- The exception classes a handler can raise (the ones `input_error`
catches). -/
inductive PyError where
  | valueError
  | indexError
  | keyError
deriving DecidableEq, Repr

/-- Result of a raw handler call: normal return carries the message and the
store after the call; an exception carries the class raised and the store
at the moment of the raise (Python mutations made before a raise persist —
here every handler checks before mutating). -/
abbrev HandlerResult := Except (PyError × Contacts) (Str × Contacts)

/-- The universal error message returned by the `input_error` decorator. -/
def UNIVERSAL_ERROR_MESSAGE : Str := str "Enter the argument for the command"

/-- The `input_error` decorator: call the handler; on `ValueError`,
`IndexError` or `KeyError` return the universal message instead (the store
stays as it was at the raise). -/
def input_error (func : List Str → Contacts → HandlerResult) :
    List Str → Contacts → Str × Contacts :=
  fun args contacts =>
    match func args contacts with
    | .ok r => r
    | .error (_, c) => (UNIVERSAL_ERROR_MESSAGE, c)

/-- `add_contact` (raw, before the decorator): `name, phone = args` raises
`ValueError` unless `args` has exactly two elements; a duplicate name
raises `ValueError`; otherwise insert and report success. -/
def add_contact (args : List Str) (contacts : Contacts) : HandlerResult :=
  match args with
  | [name, phone] =>
    if dictContains contacts name then .error (.valueError, contacts)
    else .ok (str "Contact added.", dictSet contacts name phone)
  | _ => .error (.valueError, contacts)

/-- `change_contact` (raw): `name, new_phone = args` raises `ValueError`
unless `args` has exactly two elements; an unknown name raises `KeyError`;
otherwise overwrite and report success. -/
def change_contact (args : List Str) (contacts : Contacts) : HandlerResult :=
  match args with
  | [name, newPhone] =>
    if dictContains contacts name then .ok (str "Contact updated.", dictSet contacts name newPhone)
    else .error (.keyError, contacts)
  | _ => .error (.valueError, contacts)

/-- `show_phone` (raw): `args[0]` raises `IndexError` on an empty list
(extra arguments are ignored); `contacts[name]` raises `KeyError` on a
miss. Never mutates the store. -/
def show_phone (args : List Str) (contacts : Contacts) : HandlerResult :=
  match args with
  | [] => .error (.indexError, contacts)
  | name :: _ =>
    match dictGet contacts name with
    | some phone => .ok (phone, contacts)
    | none => .error (.keyError, contacts)

/-- `show_all`: fixed message on an empty store, otherwise the
`"name: phone"` lines joined with newlines, in store order. -/
def show_all (contacts : Contacts) : Str :=
  if contacts = [] then str "No contacts saved."
  else List.intercalate (str "\n") (contacts.map (fun p => p.1 ++ str ": " ++ p.2))

/-- The session state of the dispatch loop. -/
inductive Session where
  | running (contacts : Contacts)
  | terminated
deriving DecidableEq, Repr

/-- One iteration of the `while True` loop in `main`, given the raw line
read from input: strip it, skip empty lines, otherwise parse and dispatch.
Returns the text printed (if any) and the next session state. -/
def stepLine (contacts : Contacts) (rawLine : Str) : Option Str × Session :=
  let user_input := pyStrip rawLine
  if user_input = [] then (none, .running contacts)
  else
    let parsed := parse_input user_input
    let command := parsed.1
    let args := parsed.2
    if command = str "close" ∨ command = str "exit" then
      (some (str "Good bye!"), .terminated)
    else if command = str "hello" then
      (some (str "How can I help you?"), .running contacts)
    else if command = str "add" then
      let r := input_error add_contact args contacts
      (some r.1, .running r.2)
    else if command = str "change" then
      let r := input_error change_contact args contacts
      (some r.1, .running r.2)
    else if command = str "phone" then
      let r := input_error show_phone args contacts
      (some r.1, .running r.2)
    else if command = str "all" then
      (some (show_all contacts), .running contacts)
    else
      (some (str "Invalid command."), .running contacts)

-- Scratch checks against the Python behaviour.
example : parse_input (str "add John 123-456") = (str "add", [str "John", str "123-456"]) := by
  decide
example : parse_input (str "  ADD   Ann   999  ") = (str "add", [str "Ann", str "999"]) := by
  decide
example : parse_input (str "add \"John Smith\" 123-456")
    = (str "add", [str "John Smith", str "123-456"]) := by decide
example : parse_input (str "add \"\"") = (str "add", [[]]) := by decide
example : parse_input (str "add x \"\"") = (str "add", [str "x"]) := by decide
example : parse_input (str "add \"\" x") = (str "add", [str "x"]) := by decide
example : parse_input (str "") = ([], []) := by decide
example : parse_input (str "add \"John") = (str "add", [str "John"]) := by decide
example : parse_input (str "add 'it\"s' ok") = (str "add", [str "it\"s", str "ok"]) := by decide
example : input_error add_contact [str "Ann", str "999"] []
    = (str "Contact added.", [(str "Ann", str "999")]) := by decide
example : input_error add_contact [str "Ann", str "999"] [(str "Ann", str "1")]
    = (UNIVERSAL_ERROR_MESSAGE, [(str "Ann", str "1")]) := by decide
example : input_error show_phone [str "Ann", str "zzz"] [(str "Ann", str "999")]
    = (str "999", [(str "Ann", str "999")]) := by decide
example : show_all [(str "Ann", str "999"), (str "Bob", str "111")]
    = str "Ann: 999\nBob: 111" := by decide
example : stepLine [] (str "EXIT") = (some (str "Good bye!"), .terminated) := by decide
example : stepLine [] (str "Close now") = (some (str "Good bye!"), .terminated) := by decide
example : stepLine [] (str "foo bar") = (some (str "Invalid command."), .running []) := by decide
example : stepLine [(str "Ann", str "999")] (str "all extra words")
    = (some (str "Ann: 999"), .running [(str "Ann", str "999")]) := by decide
example : stepLine [] (str "   ") = (none, .running []) := by decide

/-! ## Properties of the whitespace normalization -/

theorem mem_pySplitAux_ne_nil : ∀ (s acc : Str), ∀ w ∈ pySplitAux s acc, w ≠ []
  | [], acc, w, hw => by
    unfold pySplitAux at hw
    split at hw
    · simp at hw
    · next h =>
      simp at hw
      subst hw
      simpa using h
  | c :: rest, acc, w, hw => by
    unfold pySplitAux at hw
    split at hw
    · split at hw
      · exact mem_pySplitAux_ne_nil rest [] w hw
      · next h =>
        rcases List.mem_cons.mp hw with h1 | h1
        · subst h1; simpa using h
        · exact mem_pySplitAux_ne_nil rest [] w h1
    · exact mem_pySplitAux_ne_nil rest (c :: acc) w hw

theorem mem_pySplitAux_nospace : ∀ (s acc : Str),
    (∀ c ∈ acc, pyIsSpace c = false) →
    ∀ w ∈ pySplitAux s acc, ∀ c ∈ w, pyIsSpace c = false
  | [], acc, hacc, w, hw => by
    unfold pySplitAux at hw
    split at hw
    · simp at hw
    · simp at hw
      subst hw
      intro c hc
      exact hacc c (List.mem_reverse.mp hc)
  | c :: rest, acc, hacc, w, hw => by
    unfold pySplitAux at hw
    split at hw
    · split at hw
      · exact mem_pySplitAux_nospace rest [] (by simp) w hw
      · rcases List.mem_cons.mp hw with h1 | h1
        · subst h1
          intro d hd
          exact hacc d (List.mem_reverse.mp hd)
        · exact mem_pySplitAux_nospace rest [] (by simp) w h1
    · next hsp =>
      refine mem_pySplitAux_nospace rest (c :: acc) ?_ w hw
      intro d hd
      rcases List.mem_cons.mp hd with rfl | hd
      · simpa using hsp
      · exact hacc d hd

/-- Every word produced by `pySplit` is non-empty and whitespace-free. -/
theorem pySplit_words (s : Str) :
    ∀ w ∈ pySplit s, w ≠ [] ∧ ∀ c ∈ w, pyIsSpace c = false :=
  fun w hw =>
    ⟨mem_pySplitAux_ne_nil s [] w hw, mem_pySplitAux_nospace s [] (by simp) w hw⟩

theorem pySplitAux_append_word : ∀ (w rest acc : Str),
    (∀ c ∈ w, pyIsSpace c = false) →
    pySplitAux (w ++ rest) acc = pySplitAux rest (w.reverse ++ acc)
  | [], rest, acc, _ => by simp
  | c :: w', rest, acc, h => by
    have hc : pyIsSpace c = false := h c (by simp)
    have ih := pySplitAux_append_word w' rest (c :: acc)
      (fun d hd => h d (List.mem_cons_of_mem c hd))
    simp [pySplitAux, hc, ih, List.append_assoc]

/-- Splitting the space-joined rendering of clean words recovers them. -/
theorem pySplit_pyJoin : ∀ (ws : List Str),
    (∀ w ∈ ws, w ≠ [] ∧ ∀ c ∈ w, pyIsSpace c = false) →
    pySplit (pyJoin ws) = ws
  | [], _ => rfl
  | [w], h => by
    obtain ⟨hne, hsp⟩ := h w (by simp)
    show pySplitAux (pyJoin [w]) [] = [w]
    have : pyJoin [w] = w ++ [] := by simp [pyJoin]
    rw [this, pySplitAux_append_word w [] [] hsp]
    simp [pySplitAux, hne]
  | w :: w' :: ws, h => by
    obtain ⟨hne, hsp⟩ := h w (by simp)
    have ih := pySplit_pyJoin (w' :: ws) (fun v hv => h v (List.mem_cons_of_mem w hv))
    show pySplitAux (pyJoin (w :: w' :: ws)) [] = w :: w' :: ws
    have hj : pyJoin (w :: w' :: ws) = w ++ ' ' :: pyJoin (w' :: ws) := rfl
    rw [hj, pySplitAux_append_word w (' ' :: pyJoin (w' :: ws)) [] hsp]
    have hrev : w.reverse ++ [] ≠ [] := by simpa using hne
    simp only [pySplitAux, show pyIsSpace ' ' = true from rfl, if_pos trivial]
    rw [if_neg hrev]
    have ih' : pySplitAux (pyJoin (w' :: ws)) [] = w' :: ws := ih
    simp [ih']

/-- The whitespace normalization of `parse_input` is idempotent. -/
theorem pyNormalize_idem (s : Str) :
    pyJoin (pySplit (pyJoin (pySplit s))) = pyJoin (pySplit s) := by
  rw [pySplit_pyJoin (pySplit s) (pySplit_words s)]

/-! ## Character-level lemmas -/

theorem pyIsSpace_false_of_toNat (d : Char) (hd : 33 ≤ d.toNat) : pyIsSpace d = false := by
  unfold pyIsSpace
  simp only [Bool.or_eq_false_iff, decide_eq_false_iff_not]
  refine ⟨⟨⟨⟨⟨?_, ?_⟩, ?_⟩, ?_⟩, ?_⟩, ?_⟩ <;>
    · intro he
      rw [he] at hd
      exact absurd hd (by decide)

theorem toNat_ofNat_lower (n : Nat) (h1 : 97 ≤ n) (h2 : n ≤ 122) :
    (Char.ofNat n).toNat = n := by
  have hv : n.isValidChar := Or.inl (by omega)
  simp [Char.ofNat, hv, Char.ofNatAux, Char.toNat, UInt32.toNat, BitVec.toNat_ofNatLt]

/-- Lower-casing never turns a non-whitespace character into whitespace. -/
theorem pyToLower_nospace (c : Char) (h : pyIsSpace c = false) :
    pyIsSpace (pyToLower c) = false := by
  unfold pyToLower
  split
  · next hr =>
    have ht : (Char.ofNat (c.toNat + 32)).toNat = c.toNat + 32 :=
      toNat_ofNat_lower (c.toNat + 32) (by omega) (by omega)
    exact pyIsSpace_false_of_toNat _ (by omega)
  · exact h

theorem dropWhile_eq_self_of_all_false (p : Char → Bool) :
    ∀ (l : Str), (∀ c ∈ l, p c = false) → l.dropWhile p = l
  | [], _ => rfl
  | c :: l, h => by
    have hc := h c (by simp)
    simp [List.dropWhile_cons, hc]

/-- Stripping a whitespace-free word is the identity. -/
theorem pyStrip_eq_self (w : Str) (h : ∀ c ∈ w, pyIsSpace c = false) : pyStrip w = w := by
  unfold pyStrip
  rw [dropWhile_eq_self_of_all_false _ w h,
    dropWhile_eq_self_of_all_false _ w.reverse (fun c hc => h c (List.mem_reverse.mp hc)),
    List.reverse_reverse]

theorem takeWhile_append_of_all (p : Char → Bool) :
    ∀ (w rest : Str), (∀ c ∈ w, p c = true) →
      (w ++ rest).takeWhile p = w ++ rest.takeWhile p
  | [], rest, _ => rfl
  | c :: w, rest, h => by
    have hc := h c (by simp)
    have ih := takeWhile_append_of_all p w rest (fun d hd => h d (by simp [hd]))
    simp [List.takeWhile_cons, hc, ih]

theorem dropWhile_append_of_all (p : Char → Bool) :
    ∀ (w rest : Str), (∀ c ∈ w, p c = true) →
      (w ++ rest).dropWhile p = rest.dropWhile p
  | [], rest, _ => rfl
  | c :: w, rest, h => by
    have hc := h c (by simp)
    have ih := dropWhile_append_of_all p w rest (fun d hd => h d (by simp [hd]))
    simp [List.dropWhile_cons, hc, ih]

theorem pyJoin_cons_eq_append (w : Str) (ws : List Str) :
    ∃ u, pyJoin (w :: ws) = w ++ u := by
  cases ws with
  | nil => exact ⟨[], by simp [pyJoin]⟩
  | cons v ws2 => exact ⟨' ' :: pyJoin (v :: ws2), rfl⟩

theorem pyJoin_cons_ne_nil (w : Str) (ws : List Str) (hw : w ≠ []) :
    pyJoin (w :: ws) ≠ [] := by
  obtain ⟨u, hu⟩ := pyJoin_cons_eq_append w ws
  rw [hu]
  simp [hw]

/-! ## Structure of `parse_input` on normalized strings -/


theorem pySplitMax1_pyJoin (w : Str) (ws : List Str)
    (hw : w ≠ []) (hwsp : ∀ c ∈ w, pyIsSpace c = false)
    (hws : ∀ v ∈ ws, v ≠ [] ∧ ∀ c ∈ v, pyIsSpace c = false) :
    pySplitMax1 (pyJoin (w :: ws)) = if ws = [] then [w] else [w, pyJoin ws] := by
  have hwall : ∀ c ∈ w, (fun c => !pyIsSpace c) c = true := fun c hc => by simp [hwsp c hc]
  cases ws with
  | nil =>
    have hjw : pyJoin [w] = w := by simp [pyJoin]
    have htk : w.takeWhile (fun c => !pyIsSpace c) = w := by
      simpa using takeWhile_append_of_all (fun c => !pyIsSpace c) w [] hwall
    have hdr : w.dropWhile (fun c => !pyIsSpace c) = [] := by
      simpa using dropWhile_append_of_all (fun c => !pyIsSpace c) w [] hwall
    simp only [pySplitMax1, hjw, dropWhile_eq_self_of_all_false _ w hwsp, if_neg hw, htk, hdr]
    simp
  | cons v ws2 =>
    obtain ⟨hv, hvsp⟩ := hws v (by simp)
    have hjw : pyJoin (w :: v :: ws2) = w ++ ' ' :: pyJoin (v :: ws2) := rfl
    obtain ⟨u, hu⟩ := pyJoin_cons_eq_append v ws2
    have htne : pyJoin (v :: ws2) ≠ [] := pyJoin_cons_ne_nil v ws2 hv
    obtain ⟨c0, w0, rfl⟩ : ∃ c0 w0, w = c0 :: w0 := by
      cases w with
      | nil => exact absurd rfl hw
      | cons a b => exact ⟨a, b, rfl⟩
    have hc0 : pyIsSpace c0 = false := hwsp c0 (by simp)
    have hdrop1 : ((c0 :: w0) ++ ' ' :: pyJoin (v :: ws2)).dropWhile pyIsSpace
        = (c0 :: w0) ++ ' ' :: pyJoin (v :: ws2) := by
      rw [List.cons_append, List.dropWhile_cons, if_neg (by simp [hc0])]
    have htk : ((c0 :: w0) ++ ' ' :: pyJoin (v :: ws2)).takeWhile (fun c => !pyIsSpace c)
        = c0 :: w0 := by
      rw [takeWhile_append_of_all _ _ _ hwall, List.takeWhile_cons]
      simp [show pyIsSpace ' ' = true from rfl]
    have hdr : ((c0 :: w0) ++ ' ' :: pyJoin (v :: ws2)).dropWhile (fun c => !pyIsSpace c)
        = ' ' :: pyJoin (v :: ws2) := by
      rw [dropWhile_append_of_all _ _ _ hwall, List.dropWhile_cons]
      simp [show pyIsSpace ' ' = true from rfl]
    have hdrt : (' ' :: pyJoin (v :: ws2)).dropWhile pyIsSpace = pyJoin (v :: ws2) := by
      rw [List.dropWhile_cons, if_pos (show pyIsSpace ' ' = true from rfl)]
      obtain ⟨d0, v0, rfl⟩ : ∃ d0 v0, v = d0 :: v0 := by
        cases v with
        | nil => exact absurd rfl hv
        | cons a b => exact ⟨a, b, rfl⟩
      rw [hu, List.cons_append, List.dropWhile_cons, if_neg (by simp [hvsp d0 (by simp)])]
    simp only [pySplitMax1, hjw, hdrop1, htk, hdr, hdrt]
    simp [htne]

theorem parseNormalized_pyJoin (w : Str) (ws : List Str)
    (hall : ∀ v ∈ w :: ws, v ≠ [] ∧ ∀ c ∈ v, pyIsSpace c = false) :
    parseNormalized (pyJoin (w :: ws)) =
      (pyLower w, if ws = [] then [] else scanArgs (pyJoin ws)) := by
  obtain ⟨hw, hwsp⟩ := hall w (by simp)
  have hne : pyJoin (w :: ws) ≠ [] := pyJoin_cons_ne_nil w ws hw
  have hsm := pySplitMax1_pyJoin w ws hw hwsp (fun v hv => hall v (by simp [hv]))
  unfold parseNormalized
  rw [if_neg hne, hsm]
  cases ws with
  | nil => simp [pyStrip_eq_self w hwsp]
  | cons v ws2 => simp [pyStrip_eq_self w hwsp]

theorem parse_input_of_split_nil (s : Str) (h : pySplit s = []) : parse_input s = ([], []) := by
  unfold parse_input
  rw [h]
  rfl

theorem parse_input_of_split_cons (s w : Str) (ws : List Str) (h : pySplit s = w :: ws) :
    parse_input s = (pyLower w, if ws = [] then [] else scanArgs (pyJoin ws)) := by
  have hwords := pySplit_words s
  rw [h] at hwords
  unfold parse_input
  rw [h]
  exact parseNormalized_pyJoin w ws hwords

/-! ## Properties of the character scan -/

/-- Scanning a word with no space and no quote characters, outside quotes,
appends the word to the current buffer. -/
theorem foldl_scanChar_word : ∀ (w : Str) (st : ScanState),
    st.in_quotes = none →
    (∀ c ∈ w, c ≠ ' ' ∧ c ≠ '"' ∧ c ≠ '\'') →
    w.foldl scanChar st = ⟨st.args, st.current ++ w, none⟩
  | [], st, hq, _ => by
    cases st with
    | mk a cur q => simp_all
  | c :: w', st, hq, h => by
    obtain ⟨h1, h2, h3⟩ := h c (by simp)
    have hstep : scanChar st c = ⟨st.args, st.current ++ [c], none⟩ := by
      cases st with
      | mk a cur q =>
        cases q with
        | none => simp [scanChar, h1, h2, h3]
        | some qc => simp at hq
    rw [List.foldl_cons, hstep,
      foldl_scanChar_word w' ⟨st.args, st.current ++ [c], none⟩ rfl
        (fun d hd => h d (by simp [hd]))]
    simp

/-- Scanning the space-joined rendering of clean words pushes all but the
last word and leaves the last word in the buffer. -/
theorem foldl_scanChar_join : ∀ (ws : List Str) (hne : ws ≠ []) (A : List Str),
    (∀ w ∈ ws, w ≠ [] ∧ ∀ c ∈ w, c ≠ ' ' ∧ c ≠ '"' ∧ c ≠ '\'') →
    (pyJoin ws).foldl scanChar ⟨A, [], none⟩ = ⟨A ++ ws.dropLast, ws.getLast hne, none⟩
  | [], hne, _, _ => absurd rfl hne
  | [w], _, A, h => by
    have hw := h w (by simp)
    have : pyJoin [w] = w := by simp [pyJoin]
    rw [this, foldl_scanChar_word w ⟨A, [], none⟩ rfl hw.2]
    simp
  | w :: v :: ws2, _, A, h => by
    obtain ⟨hwne, hwcl⟩ := h w (by simp)
    have hjw : pyJoin (w :: v :: ws2) = w ++ ' ' :: pyJoin (v :: ws2) := rfl
    rw [hjw, List.foldl_append, foldl_scanChar_word w ⟨A, [], none⟩ rfl hwcl]
    have hsp : scanChar ⟨A, [] ++ w, none⟩ ' ' = ⟨A ++ [w], [], none⟩ := by
      simp [scanChar, hwne]
    rw [List.foldl_cons, hsp,
      foldl_scanChar_join (v :: ws2) (by simp) (A ++ [w])
        (fun u hu => h u (by simp [hu]))]
    have h1 : (w :: v :: ws2).dropLast = w :: (v :: ws2).dropLast := rfl
    have h2 : (w :: v :: ws2).getLast (by simp) = (v :: ws2).getLast (by simp) :=
      List.getLast_cons (by simp)
    simp [h1, h2]

/-- Re-scanning the space-joined rendering of clean non-empty words
recovers exactly those words. -/
theorem scanArgs_pyJoin (ws : List Str) (hne : ws ≠ [])
    (h : ∀ w ∈ ws, w ≠ [] ∧ ∀ c ∈ w, c ≠ ' ' ∧ c ≠ '"' ∧ c ≠ '\'') :
    scanArgs (pyJoin ws) = ws := by
  unfold scanArgs
  rw [foldl_scanChar_join ws hne [] h]
  unfold finalizeScan
  have hlast : ws.getLast hne ≠ [] := (h _ (List.getLast_mem hne)).1
  rw [if_pos (Or.inl hlast)]
  simp [List.dropLast_append_getLast hne]

/-- One scan step either leaves the pushed arguments unchanged or pushes
the (non-empty) current buffer. -/
theorem scanChar_args_cases (st : ScanState) (c : Char) :
    (scanChar st c).args = st.args ∨
    ((scanChar st c).args = st.args ++ [st.current] ∧ st.current ≠ []) := by
  cases st with
  | mk A cur q =>
    cases q with
    | some qc =>
      by_cases hc : c = qc
      · left; simp [scanChar, hc]
      · left; simp [scanChar, hc]
    | none =>
      by_cases h1 : c = '"' ∨ c = '\''
      · left; simp [scanChar, h1]
      · by_cases h2 : c = ' '
        · by_cases h3 : cur = []
          · left; simp [scanChar, h1, h2, h3]
          · right
            constructor
            · simp [scanChar, h1, h2, h3]
            · exact h3
        · left; simp [scanChar, h1, h2]

/-- During the scan, only non-empty buffers are ever pushed. -/
theorem scan_args_ne_nil : ∀ (s : Str) (st : ScanState),
    (∀ a ∈ st.args, a ≠ []) → ∀ a ∈ (s.foldl scanChar st).args, a ≠ []
  | [], _, h => h
  | c :: rest, st, h => by
    refine scan_args_ne_nil rest (scanChar st c) ?_
    intro a ha
    rcases scanChar_args_cases st c with hc | ⟨hc, hcur⟩
    · exact h a (hc ▸ ha)
    · rw [hc] at ha
      rcases List.mem_append.mp ha with ha | ha
      · exact h a ha
      · rw [List.mem_singleton.mp ha]
        exact hcur

/-- An empty token in the scan result forces the result to be exactly the
single trailing empty argument. -/
theorem mem_scanArgs_nil (s : Str) (h : [] ∈ scanArgs s) : scanArgs s = [[]] := by
  have inv : ∀ a ∈ (s.foldl scanChar ⟨[], [], none⟩).args, a ≠ [] :=
    scan_args_ne_nil s ⟨[], [], none⟩ (by simp)
  unfold scanArgs finalizeScan at h ⊢
  split at h
  · next hcond =>
    rw [if_pos hcond]
    rcases List.mem_append.mp h with h1 | h1
    · exact absurd rfl (inv [] h1)
    · have hcur : (s.foldl scanChar ⟨[], [], none⟩).current = [] :=
        (List.mem_singleton.mp h1).symm
      rcases hcond with hc | ⟨_, _, _, hargs⟩
      · exact absurd hcur hc
      · rw [hargs, hcur]
        rfl
  · exact absurd rfl (inv [] h)

/-- The scan result is the single empty argument exactly when the scan ends
outside quotes with an empty buffer and nothing pushed, and the argument
string ends with a quote character. -/
theorem scanArgs_eq_single_empty (s : Str) :
    scanArgs s = [[]] ↔
      ((s.foldl scanChar ⟨[], [], none⟩).current = [] ∧
       (s.foldl scanChar ⟨[], [], none⟩).in_quotes = none ∧
       endsWithQuote s = true ∧
       (s.foldl scanChar ⟨[], [], none⟩).args = []) := by
  have inv : ∀ a ∈ (s.foldl scanChar ⟨[], [], none⟩).args, a ≠ [] :=
    scan_args_ne_nil s ⟨[], [], none⟩ (by simp)
  constructor
  · intro h
    unfold scanArgs finalizeScan at h
    split at h
    · next hcond =>
      have hargs : (s.foldl scanChar ⟨[], [], none⟩).args = [] := by
        rcases he : (s.foldl scanChar ⟨[], [], none⟩).args with _ | ⟨a, t⟩
        · rfl
        · rw [he] at h
          have : a = [] := by
            have := congrArg (fun l => l.head?) h
            simpa using this
          exact absurd this (inv a (by simp [he]))
      rw [hargs] at h
      have hcur : (s.foldl scanChar ⟨[], [], none⟩).current = [] := by
        have := congrArg (fun l => l.head?) h
        simpa using this
      rcases hcond with hc | ⟨_, hq, hq2, _⟩
      · exact absurd hcur hc
      · exact ⟨hcur, hq, hq2, hargs⟩
    · rw [h] at inv
      exact absurd rfl (inv [] (by simp))
  · rintro ⟨hcur, hq, hq2, hargs⟩
    unfold scanArgs finalizeScan
    rw [if_pos (Or.inr ⟨hcur, hq, hq2, hargs⟩), hargs, hcur]
    rfl

/-- Lifting `mem_scanArgs_nil` to `parse_input`. -/
theorem parse_args_empty_mem (line : Str) (h : [] ∈ (parse_input line).2) :
    (parse_input line).2 = [[]] := by
  rcases hsp : pySplit line with _ | ⟨w, ws⟩
  · rw [parse_input_of_split_nil line hsp] at h
    simp at h
  · rw [parse_input_of_split_cons line w ws hsp] at h ⊢
    rcases ws with _ | ⟨v, ws2⟩
    · simp at h
    · simp only [if_neg (by simp : ¬(v :: ws2 = []))] at h ⊢
      exact mem_scanArgs_nil (pyJoin (v :: ws2)) h

/-! ## Claim theorems -/

/-- Claim C1, as stated, is false: in `add x ""` the empty quoted string is
the final token and the line ends with a quote character, yet the empty
argument is dropped because an argument (`x`) was pushed before it — the
retention is not independent of how many arguments precede. -/
theorem C1_counterexample :
    parse_input (str "add x \"\"") = (str "add", [str "x"]) ∧
    parse_input (str "add x \"\"") ≠ (str "add", [str "x", []]) := by
  decide

/-- Claim C1 (amended): an empty argument, when present, is the sole
argument; it is retained exactly when the scan ends outside quotes with an
empty buffer, the argument string ends with a quote character, and no
argument was pushed earlier (only non-empty buffers are pushed during the
scan, so every other empty quoted segment vanishes). -/
theorem C1_empty_arg_retention :
    (∀ line : Str, [] ∈ (parse_input line).2 → (parse_input line).2 = [[]]) ∧
    (∀ s : Str, scanArgs s = [[]] ↔
      ((s.foldl scanChar ⟨[], [], none⟩).current = [] ∧
       (s.foldl scanChar ⟨[], [], none⟩).in_quotes = none ∧
       endsWithQuote s = true ∧
       (s.foldl scanChar ⟨[], [], none⟩).args = [])) :=
  ⟨parse_args_empty_mem, scanArgs_eq_single_empty⟩

/-- Witness for `C1_empty_arg_retention` at concrete inputs. -/
theorem C1_empty_arg_retention_witness :
    (parse_input (str "add \"\"")).2 = [[]] ∧ scanArgs (str "\"\"") = [[]] :=
  ⟨C1_empty_arg_retention.1 (str "add \"\"") (by decide),
   (C1_empty_arg_retention.2 (str "\"\"")).mpr (by decide)⟩

/-- Claim C2: the `input_error` wrapper converts every handler exception
(the store is whatever it was at the raise) into the single universal
message, and passes successful results through unchanged; being a total
function, no fault escapes it. -/
theorem C2_input_error_normalizes (h : List Str → Contacts → HandlerResult)
    (args : List Str) (contacts : Contacts) :
    (∀ e c, h args contacts = .error (e, c) →
      input_error h args contacts = (UNIVERSAL_ERROR_MESSAGE, c)) ∧
    (∀ msg c, h args contacts = .ok (msg, c) →
      input_error h args contacts = (msg, c)) := by
  constructor
  · intro e c he
    unfold input_error
    rw [he]
  · intro msg c hok
    unfold input_error
    rw [hok]

/-- Witness for `C2_input_error_normalizes` at concrete inputs. -/
theorem C2_input_error_normalizes_witness :
    input_error add_contact [] [] = (UNIVERSAL_ERROR_MESSAGE, []) ∧
    input_error add_contact [str "Ann", str "999"] []
      = (str "Contact added.", [(str "Ann", str "999")]) :=
  ⟨(C2_input_error_normalizes add_contact [] []).1 PyError.valueError [] rfl,
   (C2_input_error_normalizes add_contact [str "Ann", str "999"] []).2
     (str "Contact added.") [(str "Ann", str "999")] rfl⟩

/-- Claim C3, as stated, is false for `phone`: with two arguments (arity
mismatch: required arity is 1) the handler ignores the extras, looks up the
first argument and succeeds — the result is the stored phone, not the
error message. -/
theorem C3_counterexample :
    input_error show_phone [str "Ann", str "zzz"] [(str "Ann", str "999")]
      = (str "999", [(str "Ann", str "999")]) ∧
    (str "999" : Str) ≠ UNIVERSAL_ERROR_MESSAGE := by
  decide

/-- Claim C3 (amended): `add` and `change` surface the universal message on
every argument count other than 2 (too few and too many); `phone` surfaces
it only when no argument is supplied — with at least one argument it uses
the first and ignores the rest, answering from the store. -/
theorem C3_arity_errors (args : List Str) (contacts : Contacts) :
    (args.length ≠ 2 →
      input_error add_contact args contacts = (UNIVERSAL_ERROR_MESSAGE, contacts)) ∧
    (args.length ≠ 2 →
      input_error change_contact args contacts = (UNIVERSAL_ERROR_MESSAGE, contacts)) ∧
    (args = [] →
      input_error show_phone args contacts = (UNIVERSAL_ERROR_MESSAGE, contacts)) ∧
    (∀ name rest, args = name :: rest →
      input_error show_phone args contacts
        = ((dictGet contacts name).getD UNIVERSAL_ERROR_MESSAGE, contacts)) := by
  refine ⟨?_, ?_, ?_, ?_⟩
  · intro hlen
    rcases args with _ | ⟨a, _ | ⟨b, _ | ⟨c, t⟩⟩⟩
    · rfl
    · rfl
    · simp at hlen
    · rfl
  · intro hlen
    rcases args with _ | ⟨a, _ | ⟨b, _ | ⟨c, t⟩⟩⟩
    · rfl
    · rfl
    · simp at hlen
    · rfl
  · rintro rfl
    rfl
  · rintro name rest rfl
    unfold input_error show_phone
    rcases hg : dictGet contacts name with _ | phone
    · simp [hg]
    · simp [hg]

/-- Witness for `C3_arity_errors` at concrete inputs. -/
theorem C3_arity_errors_witness :
    input_error add_contact [str "solo"] [] = (UNIVERSAL_ERROR_MESSAGE, []) ∧
    input_error change_contact [str "a", str "b", str "c"] []
      = (UNIVERSAL_ERROR_MESSAGE, []) ∧
    input_error show_phone [] [] = (UNIVERSAL_ERROR_MESSAGE, []) ∧
    input_error show_phone [str "Ann"] [(str "Ann", str "999")]
      = ((dictGet [(str "Ann", str "999")] (str "Ann")).getD UNIVERSAL_ERROR_MESSAGE,
         [(str "Ann", str "999")]) :=
  ⟨(C3_arity_errors [str "solo"] []).1 (by decide),
   (C3_arity_errors [str "a", str "b", str "c"] []).2.1 (by decide),
   (C3_arity_errors [] []).2.2.1 rfl,
   (C3_arity_errors [str "Ann"] [(str "Ann", str "999")]).2.2.2 (str "Ann") [] rfl⟩

/-- Claim C5: `all` never fails; on the empty store it yields the fixed
message, on a non-empty store one `name: phone` line per contact joined by
newlines in insertion order, as in the Ann/Bob example built by `add`. -/
theorem C5_show_all :
    show_all [] = str "No contacts saved." ∧
    (∀ contacts : Contacts, contacts ≠ [] →
      show_all contacts
        = List.intercalate (str "\n") (contacts.map (fun p => p.1 ++ str ": " ++ p.2))) ∧
    show_all (input_error add_contact [str "Bob", str "111"]
        (input_error add_contact [str "Ann", str "999"] []).2).2
      = str "Ann: 999\nBob: 111" := by
  refine ⟨rfl, ?_, by decide⟩
  intro contacts hne
  unfold show_all
  rw [if_neg hne]

/-- Witness for `C5_show_all` at a concrete store. -/
theorem C5_show_all_witness :
    show_all [(str "Ann", str "999")]
      = List.intercalate (str "\n")
          ([(str "Ann", str "999")].map (fun p => p.1 ++ str ": " ++ p.2)) :=
  C5_show_all.2.1 [(str "Ann", str "999")] (by decide)

/-- Claim C6: in state Normal a quote character opens a quoted span without
being appended; in state InQuote(q) only `q` closes the span without being
appended and every other character (the other quote included) is appended
literally; an unclosed quote at end of scan is no error — the accumulated
buffer is pushed as the final argument exactly when non-empty; and the
quoted example tokenizes as specified. -/
theorem C6_scan_machine :
    (∀ (st : ScanState) (c : Char), st.in_quotes = none → (c = '"' ∨ c = '\'') →
      scanChar st c = { st with in_quotes := some c }) ∧
    (∀ (st : ScanState) (q : Char), st.in_quotes = some q →
      scanChar st q = { st with in_quotes := none }) ∧
    (∀ (st : ScanState) (q c : Char), st.in_quotes = some q → c ≠ q →
      scanChar st c = { st with current := st.current ++ [c] }) ∧
    (∀ s : Str, (s.foldl scanChar ⟨[], [], none⟩).in_quotes ≠ none →
      scanArgs s =
        if (s.foldl scanChar ⟨[], [], none⟩).current = []
        then (s.foldl scanChar ⟨[], [], none⟩).args
        else (s.foldl scanChar ⟨[], [], none⟩).args
          ++ [(s.foldl scanChar ⟨[], [], none⟩).current]) ∧
    parse_input (str "add \"John Smith\" 123-456")
      = (str "add", [str "John Smith", str "123-456"]) := by
  refine ⟨?_, ?_, ?_, ?_, by decide⟩
  · intro st c hq hc
    unfold scanChar
    rw [hq]
    simp [hc]
  · intro st q hq
    unfold scanChar
    rw [hq]
    simp
  · intro st q c hq hc
    unfold scanChar
    rw [hq]
    simp [hc]
  · intro s hq
    unfold scanArgs finalizeScan
    by_cases hcur : (s.foldl scanChar ⟨[], [], none⟩).current = []
    · rw [if_neg, if_pos hcur]
      rintro (hc | ⟨-, hqn, -, -⟩)
      · exact hc hcur
      · exact hq hqn
    · rw [if_pos (Or.inl hcur), if_neg hcur]

/-- Witness for `C6_scan_machine` at concrete states and strings. -/
theorem C6_scan_machine_witness :
    scanChar ⟨[], [], none⟩ '"' = ⟨[], [], some '"'⟩ ∧
    scanChar ⟨[], str "ab", some '"'⟩ '"' = ⟨[], str "ab", none⟩ ∧
    scanChar ⟨[], str "ab", some '"'⟩ '\'' = ⟨[], str "ab" ++ ['\''], some '"'⟩ ∧
    scanArgs (str "\"John") = [str "John"] :=
  ⟨C6_scan_machine.1 ⟨[], [], none⟩ '"' rfl (Or.inl rfl),
   C6_scan_machine.2.1 ⟨[], str "ab", some '"'⟩ '"' rfl,
   C6_scan_machine.2.2.1 ⟨[], str "ab", some '"'⟩ '"' '\'' rfl (by decide),
   by
     have := C6_scan_machine.2.2.2.1 (str "\"John") (by decide)
     simpa using this⟩

/-- Claim C9: whenever a wrapped handler answers with the universal error
message, the store is unchanged (`add` and `change` check before mutating;
`phone` never mutates at all). -/
theorem C9_atomic_on_failure (args : List Str) (contacts : Contacts) :
    ((input_error add_contact args contacts).1 = UNIVERSAL_ERROR_MESSAGE →
      (input_error add_contact args contacts).2 = contacts) ∧
    ((input_error change_contact args contacts).1 = UNIVERSAL_ERROR_MESSAGE →
      (input_error change_contact args contacts).2 = contacts) ∧
    (input_error show_phone args contacts).2 = contacts := by
  refine ⟨?_, ?_, ?_⟩
  · rcases args with _ | ⟨a, _ | ⟨b, _ | ⟨c, t⟩⟩⟩
    · intro _; rfl
    · intro _; rfl
    · by_cases hc : dictContains contacts a
      · intro _
        simp [input_error, add_contact, hc]
      · intro hmsg
        exfalso
        have hok : (input_error add_contact [a, b] contacts).1 = str "Contact added." := by
          simp [input_error, add_contact, hc]
        rw [hok] at hmsg
        exact absurd hmsg (by decide)
    · intro _; rfl
  · rcases args with _ | ⟨a, _ | ⟨b, _ | ⟨c, t⟩⟩⟩
    · intro _; rfl
    · intro _; rfl
    · by_cases hc : dictContains contacts a
      · intro hmsg
        exfalso
        have hok : (input_error change_contact [a, b] contacts).1 = str "Contact updated." := by
          simp [input_error, change_contact, hc]
        rw [hok] at hmsg
        exact absurd hmsg (by decide)
      · intro _
        simp [input_error, change_contact, hc]
    · intro _; rfl
  · rcases args with _ | ⟨a, t⟩
    · rfl
    · unfold input_error show_phone
      rcases hg : dictGet contacts a with _ | phone
      · simp [hg]
      · simp [hg]

/-- Witness for `C9_atomic_on_failure` at concrete inputs. -/
theorem C9_atomic_on_failure_witness :
    (input_error add_contact [] [(str "Ann", str "999")]).2 = [(str "Ann", str "999")] ∧
    (input_error change_contact [str "Bob", str "1"] [(str "Ann", str "999")]).2
      = [(str "Ann", str "999")] ∧
    (input_error show_phone [str "Bob"] [(str "Ann", str "999")]).2
      = [(str "Ann", str "999")] :=
  ⟨(C9_atomic_on_failure [] [(str "Ann", str "999")]).1 (by decide),
   (C9_atomic_on_failure [str "Bob", str "1"] [(str "Ann", str "999")]).2.1 (by decide),
   (C9_atomic_on_failure [str "Bob"] [(str "Ann", str "999")]).2.2⟩

/-- Claim C7: `parse_input` sees only the whitespace-normalized line
(normalize runs to single spaces, trim ends), returns `("", [])` when
nothing remains, and lower-cases the first whitespace-delimited word into
the command — so `exit`/`close` terminate the session in any case. -/
theorem C7_normalization :
    (∀ s : Str, parse_input s = parse_input (pyJoin (pySplit s))) ∧
    (∀ s : Str, pySplit s = [] → parse_input s = ([], [])) ∧
    (∀ (s w : Str) (ws : List Str), pySplit s = w :: ws → (parse_input s).1 = pyLower w) ∧
    (∀ contacts : Contacts,
      stepLine contacts (str "EXIT") = (some (str "Good bye!"), .terminated)) ∧
    (∀ contacts : Contacts,
      stepLine contacts (str "Close") = (some (str "Good bye!"), .terminated)) := by
  refine ⟨?_, parse_input_of_split_nil, ?_, ?_, ?_⟩
  · intro s
    show parseNormalized (pyJoin (pySplit s))
      = parseNormalized (pyJoin (pySplit (pyJoin (pySplit s))))
    rw [pyNormalize_idem]
  · intro s w ws hsp
    rw [parse_input_of_split_cons s w ws hsp]
  · intro contacts
    simp only [stepLine]
    split_ifs with h1 h2 <;>
      first
        | rfl
        | exact absurd h1 (by decide)
        | exact absurd (by decide) h2
  · intro contacts
    simp only [stepLine]
    split_ifs with h1 h2 <;>
      first
        | rfl
        | exact absurd h1 (by decide)
        | exact absurd (by decide) h2

/-- Witness for `C7_normalization` at concrete inputs. -/
theorem C7_normalization_witness :
    parse_input (str "  ADD   Ann   999  ") = parse_input (pyJoin (pySplit (str "  ADD   Ann   999  "))) ∧
    parse_input (str "   ") = ([], []) ∧
    (parse_input (str "  ADD   Ann   999  ")).1 = pyLower (str "ADD") ∧
    stepLine [] (str "EXIT") = (some (str "Good bye!"), .terminated) :=
  ⟨C7_normalization.1 (str "  ADD   Ann   999  "),
   C7_normalization.2.1 (str "   ") (by decide),
   C7_normalization.2.2.1 (str "  ADD   Ann   999  ") (str "ADD") [str "Ann", str "999"] (by decide),
   C7_normalization.2.2.2.1 []⟩

/-- Claim C8: a dispatched line whose command is none of the recognized
verbs prints exactly "Invalid command.", leaves the store unchanged, and
never reaches the error normalizer (its output is not the normalized
message). -/
theorem C8_invalid_command (line : Str) (contacts : Contacts)
    (hne : pyStrip line ≠ [])
    (hcmd : (parse_input (pyStrip line)).1 ∉
      [str "close", str "exit", str "hello", str "add", str "change", str "phone", str "all"]) :
    stepLine contacts line = (some (str "Invalid command."), .running contacts) ∧
    str "Invalid command." ≠ UNIVERSAL_ERROR_MESSAGE := by
  refine ⟨?_, by decide⟩
  simp only [List.mem_cons, List.not_mem_nil, or_false, not_or] at hcmd
  obtain ⟨hc1, hc2, hc3, hc4, hc5, hc6, hc7⟩ := hcmd
  simp only [stepLine]
  rw [if_neg hne,
    if_neg (fun h => h.elim hc1 hc2),
    if_neg hc3, if_neg hc4, if_neg hc5, if_neg hc6, if_neg hc7]

/-- Witness for `C8_invalid_command` at a concrete line. -/
theorem C8_invalid_command_witness :
    stepLine [(str "Ann", str "999")] (str "foo bar")
      = (some (str "Invalid command."), .running [(str "Ann", str "999")]) :=
  ((C8_invalid_command (str "foo bar") [(str "Ann", str "999")]
    (by decide) (by decide))).1

/-- Claim C10: `all`, `hello`, `exit` and `close` ignore their arguments:
whatever argument list the tokenizer produced, the dispatcher calls them on
the store alone (or on nothing), so extra words change neither the output
nor the transition. -/
theorem C10_extra_args_ignored (line : Str) (contacts : Contacts) :
    ((parse_input (pyStrip line)).1 = str "all" →
      stepLine contacts line = (some (show_all contacts), .running contacts)) ∧
    ((parse_input (pyStrip line)).1 = str "hello" →
      stepLine contacts line = (some (str "How can I help you?"), .running contacts)) ∧
    (((parse_input (pyStrip line)).1 = str "exit" ∨
        (parse_input (pyStrip line)).1 = str "close") →
      stepLine contacts line = (some (str "Good bye!"), .terminated)) := by
  have hnil : (parse_input ([] : Str)).1 = [] := rfl
  refine ⟨?_, ?_, ?_⟩
  · intro hcmd
    have hne : pyStrip line ≠ [] := by
      intro h0
      rw [h0, hnil] at hcmd
      exact absurd hcmd.symm (by decide)
    simp only [stepLine]
    rw [if_neg hne, hcmd,
      if_neg (by decide), if_neg (by decide), if_neg (by decide),
      if_neg (by decide), if_neg (by decide), if_pos (by decide)]
  · intro hcmd
    have hne : pyStrip line ≠ [] := by
      intro h0
      rw [h0, hnil] at hcmd
      exact absurd hcmd.symm (by decide)
    simp only [stepLine]
    rw [if_neg hne, hcmd, if_neg (by decide), if_pos (by decide)]
  · intro hcmd
    have hne : pyStrip line ≠ [] := by
      rcases hcmd with hcmd | hcmd <;>
        · intro h0
          rw [h0, hnil] at hcmd
          exact absurd hcmd.symm (by decide)
    simp only [stepLine]
    rcases hcmd with hcmd | hcmd <;>
      rw [if_neg hne, hcmd, if_pos (by decide)]

/-- Witness for `C10_extra_args_ignored` at concrete lines. -/
theorem C10_extra_args_ignored_witness :
    stepLine [(str "Ann", str "999")] (str "all extra words")
      = (some (show_all [(str "Ann", str "999")]), .running [(str "Ann", str "999")]) ∧
    stepLine [] (str "hello there") = (some (str "How can I help you?"), .running []) ∧
    stepLine [] (str "exit now") = (some (str "Good bye!"), .terminated) :=
  ⟨(C10_extra_args_ignored (str "all extra words") [(str "Ann", str "999")]).1 (by decide),
   (C10_extra_args_ignored (str "hello there") []).2.1 (by decide),
   (C10_extra_args_ignored (str "exit now") []).2.2 (Or.inl (by decide))⟩

/-- Claim C4, as stated, is false: `add "John Smith" 123-456` has balanced
quotes and no embedded quote of the enclosing kind, yet rejoining its
arguments with single spaces loses the quoting, and re-tokenizing splits
`John Smith` into two arguments. -/
theorem C4_counterexample :
    (parse_input (str "add \"John Smith\" 123-456")).2
      = [str "John Smith", str "123-456"] ∧
    (parse_input (rejoinLine (parse_input (str "add \"John Smith\" 123-456")).1
        (parse_input (str "add \"John Smith\" 123-456")).2)).2
      = [str "John", str "Smith", str "123-456"] ∧
    ([str "John", str "Smith", str "123-456"] : List Str)
      ≠ [str "John Smith", str "123-456"] := by
  decide

/-- Claim C4 (amended): re-tokenization is the identity on the argument
sequence precisely for lines each of whose produced arguments is non-empty
and free of whitespace and quote characters (quoted spaces, quote
characters inside arguments, and empty arguments are exactly what a
plain-space rejoin cannot represent). -/
theorem C4_retokenize (line : Str)
    (h : ∀ a ∈ (parse_input line).2,
      a ≠ [] ∧ ∀ c ∈ a, pyIsSpace c = false ∧ c ≠ '"' ∧ c ≠ '\'') :
    (parse_input (rejoinLine (parse_input line).1 (parse_input line).2)).2
      = (parse_input line).2 := by
  rcases hsp : pySplit line with _ | ⟨w, ws⟩
  · rw [parse_input_of_split_nil line hsp]
    decide
  · have hp := parse_input_of_split_cons line w ws hsp
    have hwords := pySplit_words line
    rw [hsp] at hwords
    obtain ⟨hwne, hwsp⟩ := hwords w (by simp)
    have hcmdne : pyLower w ≠ [] := by
      simpa [pyLower] using hwne
    have hcmdsp : ∀ c ∈ pyLower w, pyIsSpace c = false := by
      intro c hc
      obtain ⟨d, hd, rfl⟩ := List.mem_map.mp hc
      exact pyToLower_nospace d (hwsp d hd)
    have hcmd1 : (parse_input line).1 = pyLower w := by rw [hp]
    rcases hA : (parse_input line).2 with _ | ⟨a, as⟩
    · rw [hcmd1]
      have hjw : pyJoin [pyLower w] = pyLower w := by simp [pyJoin]
      have hps : pySplit (pyLower w) = [pyLower w] := by
        rw [← hjw]
        refine pySplit_pyJoin [pyLower w] ?_
        intro v hv
        rw [List.mem_singleton.mp hv]
        exact ⟨hcmdne, hcmdsp⟩
      have hr : rejoinLine (pyLower w) [] = pyLower w := hjw
      rw [hr, parse_input_of_split_cons (pyLower w) (pyLower w) [] hps]
      rfl
    · have hargs : ∀ v ∈ a :: as, v ≠ [] ∧ ∀ c ∈ v, pyIsSpace c = false := by
        intro v hv
        obtain ⟨h1, h2⟩ := h v (hA ▸ hv)
        exact ⟨h1, fun c hc => (h2 c hc).1⟩
      have hargsq : ∀ v ∈ a :: as, v ≠ [] ∧ ∀ c ∈ v, c ≠ ' ' ∧ c ≠ '"' ∧ c ≠ '\'' := by
        intro v hv
        obtain ⟨h1, h2⟩ := h v (hA ▸ hv)
        refine ⟨h1, fun c hc => ⟨?_, (h2 c hc).2.1, (h2 c hc).2.2⟩⟩
        intro hceq
        have hcf := (h2 c hc).1
        rw [hceq] at hcf
        exact absurd hcf (by decide)
      have hps : pySplit (rejoinLine (pyLower w) (a :: as)) = pyLower w :: a :: as := by
        show pySplit (pyJoin (pyLower w :: a :: as)) = pyLower w :: a :: as
        refine pySplit_pyJoin (pyLower w :: a :: as) ?_
        intro v hv
        rcases List.mem_cons.mp hv with rfl | hv
        · exact ⟨hcmdne, hcmdsp⟩
        · exact hargs v hv
      rw [hcmd1,
        parse_input_of_split_cons (rejoinLine (pyLower w) (a :: as)) (pyLower w) (a :: as) hps]
      simp only [if_neg (by simp : ¬(a :: as = []))]
      exact scanArgs_pyJoin (a :: as) (by simp) hargsq

/-- Witness for `C4_retokenize` at a concrete line. -/
theorem C4_retokenize_witness :
    (parse_input (rejoinLine (parse_input (str "add John 123-456")).1
        (parse_input (str "add John 123-456")).2)).2
      = (parse_input (str "add John 123-456")).2 :=
  C4_retokenize (str "add John 123-456") (by decide)
